import Mathlib

/-!
Verification of the AMATN configuration module (`amatnconfig.py`).

The module is embedded shallowly:

* the process environment is a partial map `Env := String → Option String`
  (`os.getenv`);
* a Python `dict` is an association list with Python assignment semantics
  (`dictInsert` replaces the value at an existing key in place, otherwise
  appends at the end — keys stay unique for dictionaries built this way);
* Python `float` values are modelled as exact rationals (IEEE rounding is
  elided), `int` values as integers; `float(s)` / `int(s)` on the simple
  decimal literals the module uses are `parsePyFloat` / `parsePyInt`,
  returning `none` where Python would raise `ValueError`;
* the filesystem, the process-wide `firebase_admin._apps` registry and the
  construction of SDK objects are a `World` record; app and client objects
  are identified by the value of an allocation counter, so "a new object is
  constructed" is visible as the counter advancing;
* a method that can raise returns `Except FbError _ × AMATNConfig × World`:
  on an error the returned manager/world are the state at the point the
  exception propagates.
-/

/-- Process environment: `os.getenv name` returns `env name`. -/
def Env : Type := String → Option String

/-- Python `os.getenv(name, default)`. An unset variable yields the default;
a variable set to the empty string yields the empty string. -/
def getenvD (env : Env) (name dflt : String) : String :=
  (env name).getD dflt

/-- Python `str.upper()` (the venue identifiers are ASCII, where uppercasing
a character is `Char.toUpper`). -/
def pyUpper (s : String) : String := String.mk (s.toList.map Char.toUpper)

/-- Python `str.split(',')`: both keep empty pieces, and both turn the empty
string into the one-element list containing the empty string. -/
def pySplitComma (s : String) : List String := (s.toList.splitOn ',').map String.mk

/-- `ExchangeConfig` dataclass: per-venue credentials with rate-limit and
timeout defaults. -/
structure ExchangeConfig where
  exchange_id : String
  api_key : String
  secret : String
  enable_rate_limit : Bool := true
  timeout : Int := 30000
deriving DecidableEq

/-- Values appearing in the dictionary returned by `ExchangeConfig.to_dict`
(Python has strings, booleans and integers there). -/
inductive ConfigValue where
  | str (s : String)
  | bool (b : Bool)
  | int (n : Int)
deriving DecidableEq

/-- `ExchangeConfig.to_dict`: the five-key dictionary literal from the
source, in source order. -/
def ExchangeConfig.to_dict (c : ExchangeConfig) : List (String × ConfigValue) :=
  [("exchange_id", ConfigValue.str c.exchange_id),
   ("api_key", ConfigValue.str c.api_key),
   ("secret", ConfigValue.str c.secret),
   ("enable_rate_limit", ConfigValue.bool c.enable_rate_limit),
   ("timeout", ConfigValue.int c.timeout)]

/-- `FirebaseConfig` dataclass. -/
structure FirebaseConfig where
  credentials_path : String
  project_id : String
  database_url : Option String := none
deriving DecidableEq

/-- Python dictionary lookup `d[k]` / `k in d`: the value at the first (and,
for dictionaries built by `dictInsert` from `[]`, only) entry with key `k`. -/
def dictLookup {α : Type} (d : List (String × α)) (k : String) : Option α :=
  (d.find? (fun p => p.1 == k)).map Prod.snd

/-- Number of entries of `d` carrying key `k` (1 for every present key of a
real Python dict). -/
def countKey {α : Type} (d : List (String × α)) (k : String) : Nat :=
  d.countP (fun p => p.1 == k)

/-- Python dictionary assignment `d[k] = v`: replace the value at `k` in
place if the key is present, otherwise append the new binding at the end. -/
def dictInsert {α : Type} : List (String × α) → String → α → List (String × α)
  | [], k, v => [(k, v)]
  | p :: ps, k, v => if p.1 == k then (k, v) :: ps else p :: dictInsert ps k v

/-- The `ExchangeConfig` that `_load_configuration` constructs for venue
`exchange_id` when both credential variables are non-empty: key and secret
from the environment, `enable_rate_limit` and `timeout` left at their
dataclass defaults. -/
def mkCred (env : Env) (exchange_id : String) : ExchangeConfig :=
  { exchange_id := exchange_id,
    api_key := getenvD env (pyUpper exchange_id ++ "_API_KEY") "",
    secret := getenvD env (pyUpper exchange_id ++ "_SECRET") "" }

/-- Both credential variables for the venue are set to non-empty strings
("truthy" in Python: `if api_key and secret`). -/
def credOk (env : Env) (exchange_id : String) : Prop :=
  getenvD env (pyUpper exchange_id ++ "_API_KEY") "" ≠ "" ∧
  getenvD env (pyUpper exchange_id ++ "_SECRET") "" ≠ ""

instance (env : Env) (exchange_id : String) : Decidable (credOk env exchange_id) :=
  inferInstanceAs (Decidable (And _ _))

/-- One iteration of the `for exchange_id in exchange_ids` loop of
`_load_configuration`. -/
def loadStep (env : Env) (d : List (String × ExchangeConfig)) (exchange_id : String) :
    List (String × ExchangeConfig) :=
  if credOk env exchange_id then dictInsert d exchange_id (mkCred env exchange_id) else d

/-- The comma-separated venue list `ENABLED_EXCHANGES` after `.split(',')`,
with its documented default. -/
def enabledExchanges (env : Env) : List String :=
  pySplitComma (getenvD env "ENABLED_EXCHANGES" "binance,coinbasepro,kraken")

/-- The `self.exchanges` dictionary built by the loop in
`_load_configuration` (assigned before the numeric parameters are parsed,
so it exists even when a later numeric parse raises). -/
def loadExchanges (env : Env) : List (String × ExchangeConfig) :=
  (enabledExchanges env).foldl (loadStep env) []

/-- Digit character to its value. -/
def digitVal (c : Char) : Nat := c.toNat - 48

/-- All characters are ASCII digits. -/
def allDigits (cs : List Char) : Bool := cs.all (fun c => c.isDigit)

/-- Value of a digit string, most significant digit first. -/
def digitsToNat (cs : List Char) : Nat :=
  cs.foldl (fun acc c => acc * 10 + digitVal c) 0

/-- Python `float(s)` on an unsigned simple decimal literal `d+`, `d+.d*`
or `.d+` (the only shapes the module feeds it); `none` where Python raises
`ValueError`. The IEEE double is modelled by the exact rational value. -/
def parseUnsignedFloat (cs : List Char) : Option Rat :=
  match cs.splitOn '.' with
  | [intPart] =>
    if intPart ≠ [] ∧ allDigits intPart then some (digitsToNat intPart : Rat) else none
  | [intPart, fracPart] =>
    if (intPart ≠ [] ∨ fracPart ≠ []) ∧ allDigits intPart ∧ allDigits fracPart then
      some ((digitsToNat intPart : Rat) + (digitsToNat fracPart : Rat) / ((10 : Rat) ^ fracPart.length))
    else none
  | _ => none

/-- Python `float(s)` with an optional leading minus sign. -/
def parsePyFloat (s : String) : Option Rat :=
  match s.toList with
  | '-' :: rest => (parseUnsignedFloat rest).map (fun q => -q)
  | cs => parseUnsignedFloat cs

/-- Python `int(s)` on an optionally signed digit string; `none` where
Python raises `ValueError`. -/
def parsePyInt (s : String) : Option Int :=
  match s.toList with
  | '-' :: rest =>
    if rest ≠ [] ∧ allDigits rest then some (-(digitsToNat rest : Int)) else none
  | cs =>
    if cs ≠ [] ∧ allDigits cs then some ((digitsToNat cs : Int)) else none

/-- State of an `AMATNConfig` manager: the configuration fields assigned by
`_load_configuration`, plus the two lazily-populated handles (`None` at
construction). App and Firestore-client objects are identified by
allocation numbers. -/
structure AMATNConfig where
  firebase_config : FirebaseConfig
  exchanges : List (String × ExchangeConfig)
  max_position_size : Rat
  max_daily_loss : Rat
  risk_free_rate : Rat
  ohlcv_timeframe : String
  max_retries : Int
  retry_delay : Int
  strategy_eval_period : Int
  min_backtest_period : Int
  _firebase_app : Option Nat := none
  _firestore_client : Option Nat := none

/-- `AMATNConfig._load_configuration`: builds the Firebase record, the
exchanges dictionary, and the scalar parameters; `none` models the
exception propagated when a numeric environment value fails to parse. The
handles start out `None`. -/
def _load_configuration (env : Env) : Option AMATNConfig :=
  (parsePyFloat (getenvD env "MAX_POSITION_SIZE" "0.1")).bind fun max_position_size =>
  (parsePyFloat (getenvD env "MAX_DAILY_LOSS" "0.02")).bind fun max_daily_loss =>
  (parsePyFloat (getenvD env "RISK_FREE_RATE" "0.02")).bind fun risk_free_rate =>
  (parsePyInt (getenvD env "MAX_RETRIES" "3")).bind fun max_retries =>
  (parsePyInt (getenvD env "RETRY_DELAY" "5")).bind fun retry_delay =>
  (parsePyInt (getenvD env "STRATEGY_EVAL_PERIOD" "24")).bind fun strategy_eval_period =>
  (parsePyInt (getenvD env "MIN_BACKTEST_PERIOD" "720")).bind fun min_backtest_period =>
  some { firebase_config :=
           { credentials_path := getenvD env "FIREBASE_CREDENTIALS_PATH" "firebase-credentials.json",
             project_id := getenvD env "FIREBASE_PROJECT_ID" "",
             database_url := env "FIREBASE_DATABASE_URL" },
         exchanges := loadExchanges env,
         max_position_size := max_position_size, max_daily_loss := max_daily_loss,
         risk_free_rate := risk_free_rate,
         ohlcv_timeframe := getenvD env "OHLCV_TIMEFRAME" "1h",
         max_retries := max_retries, retry_delay := retry_delay,
         strategy_eval_period := strategy_eval_period,
         min_backtest_period := min_backtest_period }

/-- `AMATNConfig.validate_exchange_config`, as a function of the
`self.exchanges` dictionary it reads (the method touches no other state and
writes nothing). Returns `false` for an unconfigured venue and for a stored
credential with an empty key or secret, `true` otherwise; it never raises
(it is a total function). -/
def validate_exchange_config (exchanges : List (String × ExchangeConfig))
    (exchange_id : String) : Bool :=
  match dictLookup exchanges exchange_id with
  | none => false
  | some c => if c.api_key = "" ∨ c.secret = "" then false else true

/-- External state seen by the Firebase methods: the filesystem
(`os.path.exists`), whether the credential file is accepted by the SDK
(`credentials.Certificate` / `initialize_app` succeed), the process-wide
`firebase_admin._apps` registry (holding the default app, if any), and
allocation counters numbering the app and client objects constructed so
far. -/
structure World where
  fileExists : String → Bool
  certValid : String → Bool
  apps : Option Nat := none
  nextAppId : Nat := 0
  nextClientId : Nat := 0

/-- Exceptions the Firebase methods can propagate: the explicit
`FileNotFoundError`, and any SDK construction failure re-raised by the
`except` clause. -/
inductive FbError where
  | fileNotFound
  | initFailed
deriving DecidableEq

/-- `FirebaseConfig.validate`: reports whether the credential file exists;
file contents are never inspected. -/
def FirebaseConfig.validate (cfg : FirebaseConfig) (w : World) : Bool :=
  if !(w.fileExists cfg.credentials_path) then false else true

/-- `AMATNConfig.initialize_firebase`: raises `FileNotFoundError` when
validation fails; otherwise constructs and registers a new app when the
process-wide registry is empty (advancing the app counter), or retrieves
the already-registered app (`firebase_admin.get_app()`); the resulting app
is stored in `_firebase_app`. On an error the manager and world are
returned unchanged (the assignment never ran). -/
def initialize_firebase (m : AMATNConfig) (w : World) :
    Except FbError Unit × AMATNConfig × World :=
  if m.firebase_config.validate w = false then
    (Except.error FbError.fileNotFound, m, w)
  else
    match w.apps with
    | none =>
      if w.certValid m.firebase_config.credentials_path = false then
        (Except.error FbError.initFailed, m, w)
      else
        (Except.ok (), { m with _firebase_app := some w.nextAppId },
          { w with apps := some w.nextAppId, nextAppId := w.nextAppId + 1 })
    | some app =>
      (Except.ok (), { m with _firebase_app := some app }, w)

/-- The `firestore_client` lazy property: returns the cached client when
one exists; otherwise runs `initialize_firebase` first if `_firebase_app`
is `None` (propagating its exception), then constructs a fresh client
(advancing the client counter) and caches it. -/
def firestore_client (m : AMATNConfig) (w : World) :
    Except FbError Nat × AMATNConfig × World :=
  match m._firestore_client with
  | some c => (Except.ok c, m, w)
  | none =>
    match m._firebase_app with
    | some _ =>
      (Except.ok w.nextClientId, { m with _firestore_client := some w.nextClientId },
        { w with nextClientId := w.nextClientId + 1 })
    | none =>
      match initialize_firebase m w with
      | (Except.error e, m1, w1) => (Except.error e, m1, w1)
      | (Except.ok _, m1, w1) =>
        (Except.ok w1.nextClientId, { m1 with _firestore_client := some w1.nextClientId },
          { w1 with nextClientId := w1.nextClientId + 1 })

/-! ### Dictionary lemmas

Python dictionaries built from the empty dict by assignment have unique
keys; lookup, key count and membership interact with `dictInsert` as
follows. -/

theorem dictLookup_nil {α : Type} (k : String) :
    dictLookup ([] : List (String × α)) k = none := rfl

theorem dictLookup_cons {α : Type} (p : String × α) (ps : List (String × α)) (k : String) :
    dictLookup (p :: ps) k = if p.1 == k then some p.2 else dictLookup ps k := by
  by_cases h : (p.1 == k) = true
  · simp [dictLookup, h]
  · simp [dictLookup, h]

theorem dictLookup_dictInsert_self {α : Type} (d : List (String × α)) (k : String) (v : α) :
    dictLookup (dictInsert d k v) k = some v := by
  induction d with
  | nil => simp [dictInsert, dictLookup_cons]
  | cons p ps ih =>
    by_cases h : (p.1 == k) = true
    · simp [dictInsert, h, dictLookup_cons]
    · simp [dictInsert, h, dictLookup_cons, ih]

theorem dictLookup_dictInsert_ne {α : Type} (d : List (String × α)) (k k2 : String) (v : α)
    (h : k2 ≠ k) : dictLookup (dictInsert d k v) k2 = dictLookup d k2 := by
  have hne : k ≠ k2 := fun he => h he.symm
  induction d with
  | nil => simp [dictInsert, dictLookup_cons, dictLookup_nil, hne]
  | cons p ps ih =>
    by_cases hp : (p.1 == k) = true
    · have hp1 : p.1 = k := by simpa using hp
      simp [dictInsert, hp, dictLookup_cons, hp1, hne]
    · simp [dictInsert, hp, dictLookup_cons, ih]

theorem mem_dictInsert {α : Type} {q : String × α} {d : List (String × α)} {k : String} {v : α}
    (h : q ∈ dictInsert d k v) : q ∈ d ∨ q = (k, v) := by
  induction d with
  | nil =>
    simp [dictInsert] at h
    exact Or.inr h
  | cons p ps ih =>
    by_cases hp : (p.1 == k) = true
    · have he : dictInsert (p :: ps) k v = (k, v) :: ps := by simp [dictInsert, hp]
      rw [he, List.mem_cons] at h
      rcases h with h | h
      · exact Or.inr h
      · exact Or.inl (List.mem_cons_of_mem _ h)
    · have he : dictInsert (p :: ps) k v = p :: dictInsert ps k v := by simp [dictInsert, hp]
      rw [he, List.mem_cons] at h
      rcases h with h | h
      · exact Or.inl (h ▸ List.mem_cons_self _ _)
      · rcases ih h with h2 | h2
        · exact Or.inl (List.mem_cons_of_mem _ h2)
        · exact Or.inr h2

theorem mem_keys_dictInsert {α : Type} {a : String} {d : List (String × α)} {k : String} {v : α}
    (h : a ∈ (dictInsert d k v).map Prod.fst) : a = k ∨ a ∈ d.map Prod.fst := by
  rcases List.mem_map.mp h with ⟨q, hq, rfl⟩
  rcases mem_dictInsert hq with h2 | h2
  · exact Or.inr (List.mem_map.mpr ⟨q, h2, rfl⟩)
  · exact Or.inl (by rw [h2])

theorem keysNodup_dictInsert {α : Type} {d : List (String × α)} (k : String) (v : α)
    (h : (d.map Prod.fst).Nodup) : ((dictInsert d k v).map Prod.fst).Nodup := by
  induction d with
  | nil => simp [dictInsert]
  | cons p ps ih =>
    rw [List.map_cons, List.nodup_cons] at h
    by_cases hp : (p.1 == k) = true
    · have hp1 : p.1 = k := by simpa using hp
      have he : dictInsert (p :: ps) k v = (k, v) :: ps := by simp [dictInsert, hp]
      rw [he, List.map_cons, List.nodup_cons]
      exact ⟨hp1 ▸ h.1, h.2⟩
    · have he : dictInsert (p :: ps) k v = p :: dictInsert ps k v := by simp [dictInsert, hp]
      rw [he, List.map_cons, List.nodup_cons]
      refine ⟨fun hmem => ?_, ih h.2⟩
      rcases mem_keys_dictInsert hmem with h2 | h2
      · exact absurd h2 (by simpa using hp)
      · exact h.1 h2

theorem countKey_pos_of_dictLookup {α : Type} {d : List (String × α)} {k : String} {v : α}
    (h : dictLookup d k = some v) : 1 ≤ countKey d k := by
  rw [dictLookup] at h
  rcases Option.map_eq_some'.mp h with ⟨q, hq, -⟩
  have hmem := List.mem_of_find?_eq_some hq
  have hpred := List.find?_some hq
  rw [countKey]
  exact List.countP_pos_iff.mpr ⟨q, hmem, hpred⟩

theorem countKey_le_one_of_keysNodup {α : Type} {d : List (String × α)} (k : String)
    (h : (d.map Prod.fst).Nodup) : countKey d k ≤ 1 := by
  induction d with
  | nil => simp [countKey]
  | cons p ps ih =>
    rw [List.map_cons, List.nodup_cons] at h
    rw [countKey, List.countP_cons]
    by_cases hp : (p.1 == k) = true
    · have hp1 : p.1 = k := by simpa using hp
      have hz : List.countP (fun q => q.1 == k) ps = 0 := by
        rw [List.countP_eq_zero]
        intro q hq hqk
        have hq1 : q.1 = k := by simpa using hqk
        exact h.1 (List.mem_map.mpr ⟨q, hq, hq1.trans hp1.symm⟩)
      simp [hp, hz]
    · have := ih h.2
      rw [countKey] at this
      rw [if_neg hp]
      omega

theorem countKey_eq_one {α : Type} {d : List (String × α)} {k : String} {v : α}
    (hnd : (d.map Prod.fst).Nodup) (h : dictLookup d k = some v) : countKey d k = 1 :=
  le_antisymm (countKey_le_one_of_keysNodup k hnd) (countKey_pos_of_dictLookup h)

theorem mem_of_dictLookup {α : Type} {d : List (String × α)} {k : String} {v : α}
    (h : dictLookup d k = some v) : (k, v) ∈ d := by
  rw [dictLookup] at h
  rcases Option.map_eq_some'.mp h with ⟨q, hq, hv⟩
  have hmem := List.mem_of_find?_eq_some hq
  have hpred : q.1 = k := by simpa using List.find?_some hq
  have hqe : q = (k, v) := Prod.ext hpred hv
  exact hqe ▸ hmem

/-! ### Lemmas about the exchange-loading loop -/

theorem loadStep_pos {env : Env} {a : String} (d : List (String × ExchangeConfig))
    (h : credOk env a) : loadStep env d a = dictInsert d a (mkCred env a) := by
  simp [loadStep, h]

theorem loadStep_neg {env : Env} {a : String} (d : List (String × ExchangeConfig))
    (h : ¬ credOk env a) : loadStep env d a = d := by
  simp [loadStep, h]

/-- Once a venue is bound to the credential record built from the
environment, later loop iterations never change that binding (re-inserting
the same venue re-inserts the same record). -/
theorem dictLookup_foldl_persist (env : Env) (l : List String) (id : String)
    (d : List (String × ExchangeConfig)) (h : dictLookup d id = some (mkCred env id)) :
    dictLookup (l.foldl (loadStep env) d) id = some (mkCred env id) := by
  induction l generalizing d with
  | nil => exact h
  | cons a l ih =>
    rw [List.foldl_cons]
    apply ih
    by_cases ha : credOk env a
    · rw [loadStep_pos d ha]
      by_cases hak : a = id
      · subst hak
        exact dictLookup_dictInsert_self d a (mkCred env a)
      · rw [dictLookup_dictInsert_ne d a id (mkCred env a) (fun he => hak he.symm)]
        exact h
    · rw [loadStep_neg d ha]
      exact h

/-- A venue appearing in the loop list with complete credentials ends up
bound to exactly the credential record built from the environment. -/
theorem dictLookup_foldl_mem (env : Env) (l : List String) (id : String)
    (hcred : credOk env id) (d : List (String × ExchangeConfig)) (hmem : id ∈ l) :
    dictLookup (l.foldl (loadStep env) d) id = some (mkCred env id) := by
  induction l generalizing d with
  | nil => cases hmem
  | cons a l ih =>
    rw [List.foldl_cons]
    rcases List.mem_cons.mp hmem with rfl | hmem2
    · apply dictLookup_foldl_persist
      rw [loadStep_pos d hcred]
      exact dictLookup_dictInsert_self d id (mkCred env id)
    · exact ih (loadStep env d a) hmem2

/-- A venue with incomplete credentials is never inserted by the loop. -/
theorem dictLookup_foldl_none (env : Env) (l : List String) (id : String)
    (hcred : ¬ credOk env id) (d : List (String × ExchangeConfig))
    (h : dictLookup d id = none) :
    dictLookup (l.foldl (loadStep env) d) id = none := by
  induction l generalizing d with
  | nil => exact h
  | cons a l ih =>
    rw [List.foldl_cons]
    apply ih
    by_cases ha : credOk env a
    · have hne : id ≠ a := fun he => hcred (he ▸ ha)
      rw [loadStep_pos d ha, dictLookup_dictInsert_ne d a id (mkCred env a) hne]
      exact h
    · rw [loadStep_neg d ha]
      exact h

/-- The loop preserves key uniqueness. -/
theorem keysNodup_foldl (env : Env) (l : List String) (d : List (String × ExchangeConfig))
    (h : (d.map Prod.fst).Nodup) :
    ((l.foldl (loadStep env) d).map Prod.fst).Nodup := by
  induction l generalizing d with
  | nil => exact h
  | cons a l ih =>
    rw [List.foldl_cons]
    apply ih
    by_cases ha : credOk env a
    · rw [loadStep_pos d ha]
      exact keysNodup_dictInsert a (mkCred env a) h
    · rw [loadStep_neg d ha]
      exact h

/-- The exchanges dictionary built by `_load_configuration` has unique
keys, like every Python dict. -/
theorem keysNodup_loadExchanges (env : Env) :
    ((loadExchanges env).map Prod.fst).Nodup :=
  keysNodup_foldl env (enabledExchanges env) [] (by simp)

/-- Any property holding of every credential record the loop inserts holds
of every entry of the resulting dictionary. -/
theorem entries_foldl (env : Env) (P : String × ExchangeConfig → Prop)
    (hP : ∀ a, credOk env a → P (a, mkCred env a))
    (l : List String) (d : List (String × ExchangeConfig))
    (h : ∀ p ∈ d, P p) :
    ∀ p ∈ l.foldl (loadStep env) d, P p := by
  induction l generalizing d with
  | nil => exact h
  | cons a l ih =>
    rw [List.foldl_cons]
    apply ih
    by_cases ha : credOk env a
    · rw [loadStep_pos d ha]
      intro p hp
      rcases mem_dictInsert hp with h2 | h2
      · exact h p h2
      · rw [h2]
        exact hP a ha
    · rw [loadStep_neg d ha]
      exact h

/-- Every entry of the loaded exchanges dictionary is the credential record
built from the environment for its own key: non-empty api key and secret,
and the dataclass defaults for the rate-limit flag and the timeout. -/
theorem loadExchanges_entries (env : Env) :
    ∀ p ∈ loadExchanges env, p.2.api_key ≠ "" ∧ p.2.secret ≠ "" ∧
      p.2.enable_rate_limit = true ∧ p.2.timeout = 30000 := by
  refine entries_foldl env
    (fun p => p.2.api_key ≠ "" ∧ p.2.secret ≠ "" ∧
      p.2.enable_rate_limit = true ∧ p.2.timeout = 30000)
    ?_ (enabledExchanges env) [] (by simp)
  intro a ha
  exact ⟨ha.1, ha.2, rfl, rfl⟩

/-! ### Parsing and loading lemmas -/

theorem getenvD_of_unset {env : Env} {name : String} (dflt : String) (h : env name = none) :
    getenvD env name dflt = dflt := by
  simp [getenvD, h]

theorem parsePyFloat_point_one : parsePyFloat "0.1" = some (1 / 10 : Rat) := by
  have h : parsePyFloat "0.1" =
      some ((digitsToNat ['0'] : Rat) +
        (digitsToNat ['1'] : Rat) / ((10 : Rat) ^ (['1'] : List Char).length)) := rfl
  rw [h]
  norm_num [digitsToNat, digitVal, show '0'.toNat = 48 from rfl, show '1'.toNat = 49 from rfl]

theorem parsePyFloat_point_zero_two : parsePyFloat "0.02" = some (1 / 50 : Rat) := by
  have h : parsePyFloat "0.02" =
      some ((digitsToNat ['0'] : Rat) +
        (digitsToNat ['0', '2'] : Rat) / ((10 : Rat) ^ (['0', '2'] : List Char).length)) := rfl
  rw [h]
  norm_num [digitsToNat, digitVal, show '0'.toNat = 48 from rfl, show '2'.toNat = 50 from rfl]

theorem parsePyInt_three : parsePyInt "3" = some 3 := by decide

theorem parsePyInt_five : parsePyInt "5" = some 5 := by decide

theorem parsePyInt_twenty_four : parsePyInt "24" = some 24 := by decide

theorem parsePyInt_seven_twenty : parsePyInt "720" = some 720 := by decide

/-- Shape of a successful load: the configuration object a successful
`_load_configuration` run produces, field by field. -/
theorem load_configuration_some (env : Env) (st : AMATNConfig)
    (h : _load_configuration env = some st) :
    st.exchanges = loadExchanges env ∧
    st.firebase_config =
      { credentials_path := getenvD env "FIREBASE_CREDENTIALS_PATH" "firebase-credentials.json",
        project_id := getenvD env "FIREBASE_PROJECT_ID" "",
        database_url := env "FIREBASE_DATABASE_URL" } ∧
    st.ohlcv_timeframe = getenvD env "OHLCV_TIMEFRAME" "1h" ∧
    st._firebase_app = none ∧
    st._firestore_client = none ∧
    parsePyFloat (getenvD env "MAX_POSITION_SIZE" "0.1") = some st.max_position_size ∧
    parsePyFloat (getenvD env "MAX_DAILY_LOSS" "0.02") = some st.max_daily_loss ∧
    parsePyFloat (getenvD env "RISK_FREE_RATE" "0.02") = some st.risk_free_rate ∧
    parsePyInt (getenvD env "MAX_RETRIES" "3") = some st.max_retries ∧
    parsePyInt (getenvD env "RETRY_DELAY" "5") = some st.retry_delay := by
  unfold _load_configuration at h
  simp only [Option.bind_eq_some, Option.some.injEq] at h
  obtain ⟨mps, h1, mdl, h2, rfr, h3, mr, h4, rd, h5, sep, h6, mbp, h7, h8⟩ := h
  subst h8
  exact ⟨rfl, rfl, rfl, rfl, rfl, h1, h2, h3, h4, h5⟩

/-! ### Concrete data used to exercise the theorems -/

/-- A concrete environment: two venues enabled, complete credentials for
binance only (the scenario from the spec's testable properties). -/
def envBK : Env := fun name =>
  if name = "ENABLED_EXCHANGES" then some "binance,kraken"
  else if name = "BINANCE_API_KEY" then some "k1"
  else if name = "BINANCE_SECRET" then some "s1"
  else none

/-- The empty environment: every variable unset. -/
def envEmpty : Env := fun _ => none

/-! ### Claims about the exchange mapping -/

/-- C1: for every venue identifier appearing in the comma-separated
`ENABLED_EXCHANGES` variable whose `<VENUE>_API_KEY` and `<VENUE>_SECRET`
variables (names formed by uppercasing the identifier) are both set to
non-empty strings, the exchanges mapping built by `_load_configuration`
contains exactly one entry keyed by that identifier, whose `api_key` and
`secret` fields equal the environment values and whose `exchange_id` field
equals the identifier. -/
theorem C1_complete_credentials_stored (env : Env) (id k s : String)
    (hmem : id ∈ enabledExchanges env)
    (hk : env (pyUpper id ++ "_API_KEY") = some k) (hkne : k ≠ "")
    (hs : env (pyUpper id ++ "_SECRET") = some s) (hsne : s ≠ "") :
    dictLookup (loadExchanges env) id =
      some { exchange_id := id, api_key := k, secret := s,
             enable_rate_limit := true, timeout := 30000 } ∧
    countKey (loadExchanges env) id = 1 ∧
    ∀ st : AMATNConfig, _load_configuration env = some st →
      dictLookup st.exchanges id =
        some { exchange_id := id, api_key := k, secret := s,
               enable_rate_limit := true, timeout := 30000 } ∧
      countKey st.exchanges id = 1 := by
  have hgk : getenvD env (pyUpper id ++ "_API_KEY") "" = k := by simp [getenvD, hk]
  have hgs : getenvD env (pyUpper id ++ "_SECRET") "" = s := by simp [getenvD, hs]
  have hcred : credOk env id := ⟨by rw [hgk]; exact hkne, by rw [hgs]; exact hsne⟩
  have hmk : mkCred env id =
      { exchange_id := id, api_key := k, secret := s,
        enable_rate_limit := true, timeout := 30000 } := by
    simp [mkCred, hgk, hgs]
  have hlook : dictLookup (loadExchanges env) id = some (mkCred env id) :=
    dictLookup_foldl_mem env (enabledExchanges env) id hcred [] hmem
  have hcount : countKey (loadExchanges env) id = 1 :=
    countKey_eq_one (keysNodup_loadExchanges env) hlook
  refine ⟨by rw [hlook, hmk], hcount, ?_⟩
  intro st hst
  have hex : st.exchanges = loadExchanges env := (load_configuration_some env st hst).1
  rw [hex]
  exact ⟨by rw [hlook, hmk], hcount⟩

/-- C1 exercised at `envBK` and venue binance. -/
theorem C1_complete_credentials_stored_witness :
    dictLookup (loadExchanges envBK) "binance" =
      some { exchange_id := "binance", api_key := "k1", secret := "s1",
             enable_rate_limit := true, timeout := 30000 } ∧
    countKey (loadExchanges envBK) "binance" = 1 :=
  ⟨(C1_complete_credentials_stored envBK "binance" "k1" "s1" (by decide) (by decide)
      (by decide) (by decide) (by decide)).1,
   (C1_complete_credentials_stored envBK "binance" "k1" "s1" (by decide) (by decide)
      (by decide) (by decide) (by decide)).2.1⟩

/-- C2: for every venue identifier in `ENABLED_EXCHANGES` for which at
least one of the `<VENUE>_API_KEY` / `<VENUE>_SECRET` variables is unset or
empty (`os.getenv(var, '')` returns the empty string in both cases), the
exchanges mapping built by `_load_configuration` contains no entry for that
identifier; loading itself cannot fail on that account, since the loop is
total and simply skips the venue. -/
theorem C2_incomplete_credentials_omitted (env : Env) (id : String)
    (hmem : id ∈ enabledExchanges env)
    (h : getenvD env (pyUpper id ++ "_API_KEY") "" = "" ∨
         getenvD env (pyUpper id ++ "_SECRET") "" = "") :
    dictLookup (loadExchanges env) id = none ∧
    ∀ st : AMATNConfig, _load_configuration env = some st →
      dictLookup st.exchanges id = none := by
  have hcred : ¬ credOk env id := by
    rcases h with h | h
    · exact fun hc => hc.1 h
    · exact fun hc => hc.2 h
  have hlook : dictLookup (loadExchanges env) id = none :=
    dictLookup_foldl_none env (enabledExchanges env) id hcred [] rfl
  refine ⟨hlook, fun st hst => ?_⟩
  rw [(load_configuration_some env st hst).1]
  exact hlook

/-- C2 exercised at `envBK` and venue kraken (both variables unset). -/
theorem C2_incomplete_credentials_omitted_witness :
    dictLookup (loadExchanges envBK) "kraken" = none :=
  (C2_incomplete_credentials_omitted envBK "kraken" (by decide) (by decide)).1

/-- C3: every `ExchangeConfig` stored in the exchanges mapping built by
`_load_configuration` has a non-empty `api_key` and a non-empty `secret`,
so `validate_exchange_config` returns true for every venue present in the
mapping (the empty-credential false branch is unreachable on a loaded
mapping). -/
theorem C3_loaded_entries_validate (env : Env) :
    (∀ p ∈ loadExchanges env, p.2.api_key ≠ "" ∧ p.2.secret ≠ "") ∧
    (∀ id cfg, dictLookup (loadExchanges env) id = some cfg →
      validate_exchange_config (loadExchanges env) id = true) ∧
    (∀ st : AMATNConfig, _load_configuration env = some st →
      ∀ id cfg, dictLookup st.exchanges id = some cfg →
        validate_exchange_config st.exchanges id = true) := by
  have hall := loadExchanges_entries env
  have hval : ∀ id cfg, dictLookup (loadExchanges env) id = some cfg →
      validate_exchange_config (loadExchanges env) id = true := by
    intro id cfg hl
    have hmem := mem_of_dictLookup hl
    have hne := hall _ hmem
    simp only [validate_exchange_config, hl]
    rw [if_neg (not_or.mpr ⟨hne.1, hne.2.1⟩)]
  refine ⟨fun p hp => ⟨(hall p hp).1, (hall p hp).2.1⟩, hval, ?_⟩
  intro st hst id cfg hl
  rw [(load_configuration_some env st hst).1] at hl ⊢
  exact hval id cfg hl

/-- C3 exercised at `envBK` and the entry stored for binance. -/
theorem C3_loaded_entries_validate_witness :
    validate_exchange_config (loadExchanges envBK) "binance" = true :=
  (C3_loaded_entries_validate envBK).2.1 "binance"
    { exchange_id := "binance", api_key := "k1", secret := "s1" } (by decide)

/-- C7: for every exchange identifier not present in the exchanges mapping,
`validate_exchange_config` returns false. It cannot raise and cannot write:
in the embedding it is a total function of the mapping it reads, so the
manager's state is untouched by construction. -/
theorem C7_validate_unknown_false (exchanges : List (String × ExchangeConfig))
    (id : String) (h : dictLookup exchanges id = none) :
    validate_exchange_config exchanges id = false := by
  simp [validate_exchange_config, h]

/-- C7 exercised at the loaded `envBK` mapping and an unknown venue. -/
theorem C7_validate_unknown_false_witness :
    validate_exchange_config (loadExchanges envBK) "unknown_venue" = false :=
  C7_validate_unknown_false (loadExchanges envBK) "unknown_venue" (by decide)

/-! ### Claims about scalar parameters and `to_dict` -/

/-- C8: when none of the corresponding environment variables are set,
`_load_configuration` assigns the documented defaults: `max_position_size`
0.1, `max_daily_loss` 0.02, `risk_free_rate` 0.02, `max_retries` 3,
`retry_delay` 5, `ohlcv_timeframe` "1h" (floats read as exact rationals).
When the remaining two numeric variables are also unset, loading
succeeds. -/
theorem C8_default_parameters (env : Env)
    (h1 : env "MAX_POSITION_SIZE" = none) (h2 : env "MAX_DAILY_LOSS" = none)
    (h3 : env "RISK_FREE_RATE" = none) (h4 : env "MAX_RETRIES" = none)
    (h5 : env "RETRY_DELAY" = none) (h6 : env "OHLCV_TIMEFRAME" = none) :
    (∀ st : AMATNConfig, _load_configuration env = some st →
      st.max_position_size = 1 / 10 ∧ st.max_daily_loss = 1 / 50 ∧
      st.risk_free_rate = 1 / 50 ∧ st.max_retries = 3 ∧ st.retry_delay = 5 ∧
      st.ohlcv_timeframe = "1h") ∧
    (env "STRATEGY_EVAL_PERIOD" = none → env "MIN_BACKTEST_PERIOD" = none →
      (_load_configuration env).isSome = true) := by
  constructor
  · intro st hst
    obtain ⟨-, -, htf, -, -, hmps, hmdl, hrfr, hmr, hrd⟩ := load_configuration_some env st hst
    rw [getenvD_of_unset _ h1, parsePyFloat_point_one] at hmps
    rw [getenvD_of_unset _ h2, parsePyFloat_point_zero_two] at hmdl
    rw [getenvD_of_unset _ h3, parsePyFloat_point_zero_two] at hrfr
    rw [getenvD_of_unset _ h4, parsePyInt_three] at hmr
    rw [getenvD_of_unset _ h5, parsePyInt_five] at hrd
    rw [getenvD_of_unset _ h6] at htf
    exact ⟨(Option.some.inj hmps).symm, (Option.some.inj hmdl).symm,
      (Option.some.inj hrfr).symm, (Option.some.inj hmr).symm,
      (Option.some.inj hrd).symm, htf⟩
  · intro h7 h8
    unfold _load_configuration
    rw [getenvD_of_unset _ h1, getenvD_of_unset _ h2, getenvD_of_unset _ h3,
      getenvD_of_unset _ h4, getenvD_of_unset _ h5, getenvD_of_unset _ h7,
      getenvD_of_unset _ h8]
    rw [parsePyFloat_point_one, parsePyFloat_point_zero_two, parsePyInt_three,
      parsePyInt_five, parsePyInt_twenty_four, parsePyInt_seven_twenty]
    rfl

/-- C8 exercised at the empty environment. -/
theorem C8_default_parameters_witness :
    (_load_configuration envEmpty).isSome = true :=
  (C8_default_parameters envEmpty rfl rfl rfl rfl rfl rfl).2 rfl rfl

/-- C10: `to_dict` returns a dictionary with exactly the five keys
`exchange_id`, `api_key`, `secret`, `enable_rate_limit`, `timeout`, bound
to the corresponding dataclass fields; and every credential built by
loading maps `enable_rate_limit` to true and `timeout` to 30000, since the
loop never overrides those defaults. -/
theorem C10_to_dict_fields (c : ExchangeConfig) (env : Env) :
    c.to_dict.map Prod.fst =
      ["exchange_id", "api_key", "secret", "enable_rate_limit", "timeout"] ∧
    dictLookup c.to_dict "exchange_id" = some (ConfigValue.str c.exchange_id) ∧
    dictLookup c.to_dict "api_key" = some (ConfigValue.str c.api_key) ∧
    dictLookup c.to_dict "secret" = some (ConfigValue.str c.secret) ∧
    dictLookup c.to_dict "enable_rate_limit" = some (ConfigValue.bool c.enable_rate_limit) ∧
    dictLookup c.to_dict "timeout" = some (ConfigValue.int c.timeout) ∧
    (∀ id cfg, dictLookup (loadExchanges env) id = some cfg →
      dictLookup cfg.to_dict "enable_rate_limit" = some (ConfigValue.bool true) ∧
      dictLookup cfg.to_dict "timeout" = some (ConfigValue.int 30000)) := by
  refine ⟨rfl, rfl, rfl, rfl, rfl, rfl, ?_⟩
  intro id cfg hl
  have hdef := loadExchanges_entries env _ (mem_of_dictLookup hl)
  constructor
  · show dictLookup cfg.to_dict "enable_rate_limit" = some (ConfigValue.bool true)
    rw [show dictLookup cfg.to_dict "enable_rate_limit" =
        some (ConfigValue.bool cfg.enable_rate_limit) from rfl, hdef.2.2.1]
  · rw [show dictLookup cfg.to_dict "timeout" =
        some (ConfigValue.int cfg.timeout) from rfl, hdef.2.2.2]

/-- C10 exercised at the default credential record and the `envBK`
mapping. -/
theorem C10_to_dict_fields_witness :
    dictLookup (mkCred envBK "binance").to_dict "enable_rate_limit" =
      some (ConfigValue.bool true) ∧
    dictLookup (mkCred envBK "binance").to_dict "timeout" =
      some (ConfigValue.int 30000) :=
  (C10_to_dict_fields (mkCred envBK "binance") envBK).2.2.2.2.2.2 "binance"
    (mkCred envBK "binance") (by decide)

/-! ### Claims about Firebase initialization and the lazy client -/

/-- A concrete manager in its post-construction state. -/
def mgr0 : AMATNConfig :=
  { firebase_config := { credentials_path := "firebase-credentials.json", project_id := "" },
    exchanges := [],
    max_position_size := 1 / 10, max_daily_loss := 1 / 50, risk_free_rate := 1 / 50,
    ohlcv_timeframe := "1h", max_retries := 3, retry_delay := 5,
    strategy_eval_period := 24, min_backtest_period := 720 }

/-- A world with no credential file. -/
def wMissing : World := { fileExists := fun _ => false, certValid := fun _ => false }

/-- A world where the file exists, the SDK accepts it, and the registry
already holds app number 7. -/
def wApp7 : World :=
  { fileExists := fun _ => true, certValid := fun _ => true, apps := some 7, nextAppId := 8 }

/-- C6: `FirebaseConfig.validate` returns false exactly when the configured
`credentials_path` does not exist at call time, true when it exists, and
its result depends only on file existence, never on file contents (two
worlds agreeing on existence — but possibly disagreeing on whether the SDK
would accept the contents — validate identically). -/
theorem C6_validate_is_existence (cfg : FirebaseConfig) (w w2 : World) :
    (cfg.validate w = false ↔ w.fileExists cfg.credentials_path = false) ∧
    (cfg.validate w = true ↔ w.fileExists cfg.credentials_path = true) ∧
    (w.fileExists = w2.fileExists → cfg.validate w = cfg.validate w2) := by
  have he : ∀ w3 : World, cfg.validate w3 = w3.fileExists cfg.credentials_path := by
    intro w3
    cases hw : w3.fileExists cfg.credentials_path <;>
      simp [FirebaseConfig.validate, hw]
  refine ⟨by rw [he], by rw [he], fun hfe => ?_⟩
  rw [he, he, hfe]

/-- C6 exercised: same existence map, different contents-acceptance maps. -/
theorem C6_validate_is_existence_witness :
    mgr0.firebase_config.validate wApp7 =
      mgr0.firebase_config.validate
        { fileExists := fun _ => true, certValid := fun _ => false } :=
  (C6_validate_is_existence mgr0.firebase_config wApp7
    { fileExists := fun _ => true, certValid := fun _ => false }).2.2 rfl

/-- C5: if the configured credential file does not exist when
`initialize_firebase` is called, it raises `FileNotFoundError`; and on this
or any other initialization failure the manager is returned unchanged, so
its `_firebase_app` handle is exactly what it was (in particular still
`None` for a freshly-constructed manager). -/
theorem C5_initialize_firebase_failure (m : AMATNConfig) (w : World) :
    (w.fileExists m.firebase_config.credentials_path = false →
      initialize_firebase m w = (Except.error FbError.fileNotFound, m, w)) ∧
    (∀ e m2 w2, initialize_firebase m w = (Except.error e, m2, w2) →
      m2 = m ∧ m2._firebase_app = m._firebase_app) := by
  constructor
  · intro h
    have hv : m.firebase_config.validate w = false := by
      simp [FirebaseConfig.validate, h]
    unfold initialize_firebase
    rw [if_pos hv]
  · intro e m2 w2 h
    unfold initialize_firebase at h
    by_cases hv : m.firebase_config.validate w = false
    · rw [if_pos hv] at h
      rw [Prod.mk.injEq, Prod.mk.injEq] at h
      exact ⟨h.2.1.symm, by rw [h.2.1]⟩
    · rw [if_neg hv] at h
      cases happ : w.apps with
      | none =>
        rw [happ] at h
        by_cases hc : w.certValid m.firebase_config.credentials_path = false
        · rw [if_pos hc] at h
          rw [Prod.mk.injEq, Prod.mk.injEq] at h
          exact ⟨h.2.1.symm, by rw [h.2.1]⟩
        · rw [if_neg hc] at h
          rw [Prod.mk.injEq, Prod.mk.injEq] at h
          exact absurd h.1 (by simp)
      | some app =>
        rw [happ] at h
        rw [Prod.mk.injEq, Prod.mk.injEq] at h
        exact absurd h.1 (by simp)

/-- C5 exercised at a fresh manager and a world with no credential file. -/
theorem C5_initialize_firebase_failure_witness :
    initialize_firebase mgr0 wMissing = (Except.error FbError.fileNotFound, mgr0, wMissing) ∧
    (mgr0 = mgr0 ∧ mgr0._firebase_app = mgr0._firebase_app) :=
  ⟨(C5_initialize_firebase_failure mgr0 wMissing).1 rfl,
   (C5_initialize_firebase_failure mgr0 wMissing).2 FbError.fileNotFound mgr0 wMissing
     ((C5_initialize_firebase_failure mgr0 wMissing).1 rfl)⟩

/-- C9: when a process-wide application handle already exists and the
credential file exists, `initialize_firebase` constructs nothing new — the
world (registry and allocation counters included) is returned unchanged —
and the existing handle is stored in the manager. -/
theorem C9_initialize_firebase_idempotent (m : AMATNConfig) (w : World) (app : Nat)
    (happ : w.apps = some app)
    (hfile : w.fileExists m.firebase_config.credentials_path = true) :
    initialize_firebase m w = (Except.ok (), { m with _firebase_app := some app }, w) := by
  have hv : ¬ m.firebase_config.validate w = false := by
    simp [FirebaseConfig.validate, hfile]
  unfold initialize_firebase
  rw [if_neg hv, happ]

/-- C9 exercised at a registry already holding app number 7. -/
theorem C9_initialize_firebase_idempotent_witness :
    initialize_firebase mgr0 wApp7 =
      (Except.ok (), { mgr0 with _firebase_app := some 7 }, wApp7) :=
  C9_initialize_firebase_idempotent mgr0 wApp7 7 rfl rfl

/-- C4: a successful access to the `firestore_client` lazy property leaves
the returned client cached in the manager, and any subsequent access
returns the identical client with the manager and the world (hence the
client-allocation counter) completely unchanged — no second client is ever
constructed on the same instance. If a client was already cached, the
access itself changes nothing. -/
theorem C4_firestore_client_cached (m : AMATNConfig) (w : World) (c : Nat)
    (m2 : AMATNConfig) (w2 : World)
    (h : firestore_client m w = (Except.ok c, m2, w2)) :
    m2._firestore_client = some c ∧
    firestore_client m2 w2 = (Except.ok c, m2, w2) ∧
    (∀ c0, m._firestore_client = some c0 → m2 = m ∧ w2 = w ∧ c = c0) := by
  cases hc : m._firestore_client with
  | some c0 =>
    unfold firestore_client at h
    rw [hc] at h
    rw [Prod.mk.injEq, Prod.mk.injEq, Except.ok.injEq] at h
    obtain ⟨h1, h2, h3⟩ := h
    subst h1 h2 h3
    refine ⟨hc, ?_, ?_⟩
    · unfold firestore_client
      rw [hc]
    · intro c1 hc1
      exact ⟨rfl, rfl, Option.some.inj hc1⟩
  | none =>
    unfold firestore_client at h
    rw [hc] at h
    cases ha : m._firebase_app with
    | some a =>
      rw [ha] at h
      rw [Prod.mk.injEq, Prod.mk.injEq, Except.ok.injEq] at h
      obtain ⟨h1, h2, h3⟩ := h
      subst h1 h2 h3
      refine ⟨rfl, ?_, ?_⟩
      · unfold firestore_client
        rfl
      · intro c1 hc1
        exact absurd hc1 (by simp)
    | none =>
      rw [ha] at h
      rcases hr : initialize_firebase m w with ⟨r, m1, w1⟩
      rw [hr] at h
      cases r with
      | error e =>
        rw [Prod.mk.injEq, Prod.mk.injEq] at h
        exact absurd h.1 (by simp)
      | ok u =>
        rw [Prod.mk.injEq, Prod.mk.injEq, Except.ok.injEq] at h
        obtain ⟨h1, h2, h3⟩ := h
        subst h1 h2 h3
        refine ⟨rfl, ?_, ?_⟩
        · unfold firestore_client
          rfl
        · intro c1 hc1
          exact absurd hc1 (by simp)

/-- C4 exercised: a first access on a fresh manager in a world that accepts
the credential file, followed by the guaranteed identical second access. -/
theorem C4_firestore_client_cached_witness :
    ({ mgr0 with _firebase_app := some 7, _firestore_client := some 0 })._firestore_client =
      some 0 ∧
    firestore_client { mgr0 with _firebase_app := some 7, _firestore_client := some 0 }
        { wApp7 with nextClientId := 1 } =
      (Except.ok 0, { mgr0 with _firebase_app := some 7, _firestore_client := some 0 },
        { wApp7 with nextClientId := 1 }) :=
  ⟨(C4_firestore_client_cached { mgr0 with _firebase_app := some 7 } wApp7 0
      { mgr0 with _firebase_app := some 7, _firestore_client := some 0 }
      { wApp7 with nextClientId := 1 } rfl).1,
   (C4_firestore_client_cached { mgr0 with _firebase_app := some 7 } wApp7 0
      { mgr0 with _firebase_app := some 7, _firestore_client := some 0 }
      { wApp7 with nextClientId := 1 } rfl).2.1⟩
